import Mathlib

/-!
Verification of the kooplearn repository's numerical core against its
specification.  The Python sources (`DynamicalSystems/utils.py`,
`legacy_code/koopman_regression.py`,
`kooplearn/koopman_estimators/BaseKoopmanEstimator.py`) are shallowly
embedded below.  Matrices are represented column-major, as lists of
columns over `ℝ`; external library routines (scipy eigen/linear solvers,
numpy random sketches) are oracle parameters, since their code is not
part of this repository.  Python exceptions are modelled with `Except`.
-/

namespace Kooplearn

/-- Python exception kinds raised by the embedded code. -/
inductive PyError where
  | attributeError (msg : String)
  | valueError (msg : String)
  | typeError (msg : String)
  | recursionError (msg : String)
  deriving DecidableEq, Repr

/-- A column vector: a list of real entries. -/
abbrev Col := List ℝ

/-- A matrix, stored column-major: a list of columns. -/
abbrev Mat := List Col

/-- Euclidean inner product of two columns (`np.vdot` on real data). -/
def dot (u v : Col) : ℝ := (List.zipWith (fun a b => a * b) u v).sum

/-- Entrywise sum of two columns. -/
def colAdd (u v : Col) : Col := List.zipWith (fun a b => a + b) u v

/-- Entrywise difference of two columns. -/
def colSub (u v : Col) : Col := List.zipWith (fun a b => a - b) u v

/-- Scalar multiple of a column. -/
def colSmul (a : ℝ) (v : Col) : Col := v.map (fun x => a * x)

/-- Sum of a list of (equal-length) columns; empty list sums to `[]`. -/
def sumCols : List Col → Col
  | [] => []
  | [c] => c
  | c :: rest => colAdd c (sumCols rest)

/-- Matrix–vector product for a column-major matrix: the linear
combination of the columns of `A` with the entries of `v`. -/
def matVec (A : Mat) (v : Col) : Col := sumCols (List.zipWith colSmul v A)

/-- Matrix–matrix product `A @ B` (column-major). -/
def matMul (A B : Mat) : Mat := B.map (matVec A)

/-- Entrywise matrix sum. -/
def matAdd (A B : Mat) : Mat := List.zipWith colAdd A B

/-- Entrywise matrix difference. -/
def matSub (A B : Mat) : Mat := List.zipWith colSub A B

/-- Scalar multiple of a matrix. -/
def matSmul (a : ℝ) (A : Mat) : Mat := A.map (colSmul a)

/-- Number of rows of a column-major matrix (`A.shape[0]`). -/
def numRows (A : Mat) : ℕ := (A.headD []).length

/-- The identity matrix `np.eye n`, column-major. -/
def idMat : ℕ → Mat
  | 0 => []
  | n + 1 => ((1 : ℝ) :: List.replicate n 0) :: (idMat n).map (fun c => 0 :: c)

/-- `np.diag` of a vector: the square diagonal matrix with those entries. -/
def diagMat (d : List ℝ) : Mat :=
  (List.range d.length).map (fun j =>
    (List.range d.length).map (fun i => if i = j then d.getD j 0 else 0))

/-- Transpose of a column-major matrix. -/
def transpose (A : Mat) : Mat :=
  (List.range (numRows A)).map (fun i => A.map (fun c => c.getD i 0))

/-- `np.trace`: sum of the diagonal entries. -/
def traceMat (A : Mat) : ℝ :=
  ((List.range A.length).map (fun i => (A.getD i []).getD i 0)).sum

/-- `np.linalg.norm(·, ord=1)` on a matrix: maximum absolute column sum. -/
def matNorm1 (A : Mat) : ℝ :=
  (A.map (fun c => (c.map (fun x => |x|)).sum)).foldr max 0

/-- `np.argmax` on a vector: index of the first maximal entry
(auxiliary recursion carrying the running best index and value). -/
noncomputable def argmaxAux : List ℝ → ℕ → ℕ → ℝ → ℕ
  | [], _, best, _ => best
  | x :: xs, i, best, bv =>
      if bv < x then argmaxAux xs (i + 1) i x else argmaxAux xs (i + 1) best bv

/-- `np.argmax` on a vector (0 on the empty vector). -/
noncomputable def argmaxIdx : List ℝ → ℕ
  | [] => 0
  | x :: xs => argmaxAux xs 1 0 x

/-- Simultaneous swap assignment `l[[i,j]] = l[[j,i]]` (numpy fancy
assignment reads the right-hand side before writing). -/
def listSwap (l : List α) (i j : ℕ) (d : α) : List α :=
  (l.set i (l.getD j d)).set j (l.getD i d)

/-- Fancy indexing `l[idxs]`. -/
def selIdx (l : List α) (idxs : List ℕ) (d : α) : List α :=
  idxs.map (fun i => l.getD i d)

/-!  ## `DynamicalSystems/utils.py`: `parse_backend`  -/

/-- Embedding of `parse_backend(backend, X)` from
`DynamicalSystems/utils.py`.  `rows` stands for `X.shape[0]`. -/
def parse_backend (backend : String) (rows : ℕ) : Except PyError String :=
  if backend = "keops" then .ok backend
  else if backend = "cpu" then .ok backend
  else if backend = "auto" then
    if rows < 2000 then .ok ("cpu") else .ok ("keops")
  else .error (.valueError ("Unrecognized backend \x27" ++ backend ++
    "\x27. Accepted values are \x27auto\x27, \x27cpu\x27 or \x27keops\x27."))

/-!  ## `DynamicalSystems/utils.py`: `modified_QR`

The pivoted modified Gram–Schmidt loop.  The source computes, at step
`k`, the weighted squared norms of the remaining columns
(`np.diag(Q[:,k:].T @ M @ Q[:,k:])`), takes `np.argmax` of them, and then
immediately overwrites the chosen index with `0` (`idx = np.argmax(nrm_);
idx = 0`), so the swap of columns `k` and `k + idx` is the identity.  The
upper-triangular factor `R` is kept only for the diagnostic
orthogonality-error print and is dropped from the return value, so the
embedding tracks `Q`, the permutation `perm_` and the detected `rank`;
the `print` statement and the dead `if 0:` re-orthogonalization branch
have no observable effect and are omitted. -/

/-- One run of the `for k in range(vecs)` loop of `modified_QR`; `fuel`
counts the remaining iterations (`vecs - k`).  Returns the final `Q`,
the permutation, and the detected rank. -/
noncomputable def qrLoop (M : Mat) : ℕ → ℕ → Mat → List ℕ → Mat × List ℕ × ℕ
  | 0, k, Q, perm => (Q, perm, k)
  | fuel + 1, k, Q, perm =>
      let nrm := (Q.drop k).map (fun c => dot c (matVec M c))
      let idx := argmaxIdx nrm
      let idx := 0
      let Q1 := listSwap Q k (k + idx) []
      let perm1 := listSwap perm k (k + idx) 0
      let Rkk := Real.sqrt |nrm.getD idx 0|
      if ¬ Rkk < 1e-12 then
        let qk := colSmul (1 / Rkk) (Q1.getD k [])
        let Mq := matVec M qk
        let Q2 := Q1.take k ++ [qk] ++
          (Q1.drop (k + 1)).map (fun cj => colSub cj (colSmul (dot Mq cj) qk))
        qrLoop M fuel (k + 1) Q2 perm1
      else
        (Q1, perm1, k)

/-- The body of `modified_QR` after backend parsing: run the loop and
return `Q[:,perm_][:,:rank]`. -/
noncomputable def modified_QR_core (A M : Mat) : Mat :=
  let vecs := A.length
  let res := qrLoop M vecs 0 A (List.range vecs)
  ((res.2.1.map (fun i => res.1.getD i [])).take res.2.2)

/-- Embedding of `modified_QR(A, backend, M=None)` from
`DynamicalSystems/utils.py`.  When `M` is `None` both backends install an
identity weighting. -/
noncomputable def modified_QR (A : Mat) (backend : String) (M? : Option Mat) :
    Except PyError Mat :=
  match parse_backend backend (numRows A) with
  | .error e => .error e
  | .ok _ => .ok (modified_QR_core A (M?.getD (idMat (numRows A))))

/-- Modelled from the spec: the same loop with the greedy pivot actually
applied, i.e. with the dead `idx = 0` overwrite removed, so each step
swaps the remaining column of largest weighted norm into position `k`
(spec section 4.3: select the remaining column with largest weighted
residual norm). -/
noncomputable def qrLoopPivoted (M : Mat) : ℕ → ℕ → Mat → List ℕ → Mat × List ℕ × ℕ
  | 0, k, Q, perm => (Q, perm, k)
  | fuel + 1, k, Q, perm =>
      let nrm := (Q.drop k).map (fun c => dot c (matVec M c))
      let idx := argmaxIdx nrm
      let Q1 := listSwap Q k (k + idx) []
      let perm1 := listSwap perm k (k + idx) 0
      let Rkk := Real.sqrt |nrm.getD idx 0|
      if ¬ Rkk < 1e-12 then
        let qk := colSmul (1 / Rkk) (Q1.getD k [])
        let Mq := matVec M qk
        let Q2 := Q1.take k ++ [qk] ++
          (Q1.drop (k + 1)).map (fun cj => colSub cj (colSmul (dot Mq cj) qk))
        qrLoopPivoted M fuel (k + 1) Q2 perm1
      else
        (Q1, perm1, k)

/-- Modelled from the spec: `modified_QR` with real greedy pivoting. -/
noncomputable def modified_QR_pivoted (A : Mat) (backend : String)
    (M? : Option Mat) : Except PyError Mat :=
  match parse_backend backend (numRows A) with
  | .error e => .error e
  | .ok _ =>
      let M := M?.getD (idMat (numRows A))
      let vecs := A.length
      let res := qrLoopPivoted M vecs 0 A (List.range vecs)
      .ok ((res.2.1.map (fun i => res.1.getD i [])).take res.2.2)

/-- Plain no-pivot weighted Gram–Schmidt with early stop: normalize the
leading column unless its weighted norm is below `1e-12` (in which case
stop and return the columns produced so far), then deflate it out of the
remaining columns.  The amended C3 states that `modified_QR` computes
exactly this, processing columns in their original order. -/
noncomputable def gsNoPivot (M : Mat) : Mat → Mat
  | [] => []
  | c :: rest =>
      let r := Real.sqrt |dot c (matVec M c)|
      if ¬ r < 1e-12 then
        let q := colSmul (1 / r) c
        let Mq := matVec M q
        q :: gsNoPivot M (rest.map (fun cj => colSub cj (colSmul (dot Mq cj) q)))
      else []
termination_by l => l.length
decreasing_by simp [List.length_map]

/-!  ### Helper lemmas about the Gram–Schmidt loop  -/

theorem set_getD_self (l : List α) (k : ℕ) (d : α) : l.set k (l.getD k d) = l := by
  by_cases h : k < l.length
  · have hg : l.getD k d = l.get ⟨k, h⟩ := by
      simp [List.getD_eq_getElem?_getD, List.getElem?_eq_getElem h]
    rw [hg]
    apply List.ext_getElem
    · simp
    · intro j h1 h2
      rw [List.getElem_set]
      split
      · next hj => subst hj; rfl
      · rfl
  · exact List.set_eq_of_length_le (le_of_not_lt h)

theorem listSwap_self (l : List α) (k : ℕ) (d : α) : listSwap l k k d = l := by
  unfold listSwap
  rw [List.set_set, set_getD_self]

theorem map_getD_range (l : List α) (d : α) :
    (List.range l.length).map (fun i => l.getD i d) = l := by
  apply List.ext_getElem
  · simp
  · intro j h1 h2
    simp only [List.getElem_map, List.getElem_range]
    simp [List.getD_eq_getElem?_getD, List.getElem?_eq_getElem h2]

/-- The weighted pivot norm `sqrt(abs(<c, M c>))` of a column. -/
noncomputable def pivotNorm (M : Mat) (c : Col) : ℝ :=
  Real.sqrt |dot c (matVec M c)|

/-- A column divided by its weighted pivot norm. -/
noncomputable def normCol (M : Mat) (c : Col) : Col :=
  colSmul (1 / pivotNorm M c) c

/-- Deflating a column `cj` by the weighted projection onto `q`. -/
noncomputable def deflateBy (M : Mat) (q cj : Col) : Col :=
  colSub cj (colSmul (dot (matVec M q) cj) q)

theorem gsNoPivot_cons_stop (M : Mat) (c : Col) (rest : List Col)
    (hr : pivotNorm M c < 1e-12) : gsNoPivot M (c :: rest) = [] := by
  rw [gsNoPivot]
  simp only [pivotNorm] at hr
  simp [hr]

theorem gsNoPivot_cons_go (M : Mat) (c : Col) (rest : List Col)
    (hr : ¬ pivotNorm M c < 1e-12) :
    gsNoPivot M (c :: rest) =
      normCol M c :: gsNoPivot M (rest.map (deflateBy M (normCol M c))) := by
  rw [gsNoPivot]
  simp only [pivotNorm] at hr
  simp only [hr, not_false_eq_true, if_true]
  rfl

theorem gsNoPivot_length_le (M : Mat) : ∀ (n : ℕ) (l : Mat), l.length ≤ n →
    (gsNoPivot M l).length ≤ l.length := by
  intro n
  induction n with
  | zero =>
      intro l hl
      interval_cases h : l.length
      · cases l
        · simp [gsNoPivot]
        · simp at h
  | succ n ih =>
      intro l hl
      cases l with
      | nil => simp [gsNoPivot]
      | cons c rest =>
          by_cases hr : pivotNorm M c < 1e-12
          · simp [gsNoPivot_cons_stop M c rest hr]
          · rw [gsNoPivot_cons_go M c rest hr]
            have := ih (rest.map (deflateBy M (normCol M c))) (by simp at hl ⊢; omega)
            simp only [List.length_cons, List.length_map] at this ⊢
            omega

/-- One unfolding of the `modified_QR` loop at a position `k` inside the
matrix, in the early-stop case: the argmax is discarded (`idx = 0`), the
swap is the identity, and since the pivot norm is below the tolerance
the loop breaks with rank `k`. -/
theorem qrLoop_succ_stop (M : Mat) (fuel k : ℕ) (Q : Mat) (perm : List ℕ)
    (hk : k < Q.length) (hr : pivotNorm M (Q.getD k []) < 1e-12) :
    qrLoop M (fuel + 1) k Q perm = (Q, perm, k) := by
  have hgetD : Q.getD k [] = Q.get ⟨k, hk⟩ := by
    simp [List.getD_eq_getElem?_getD, List.getElem?_eq_getElem hk]
  have hdrop : Q.drop k = Q.getD k [] :: Q.drop (k + 1) := by
    rw [hgetD]; exact List.drop_eq_getElem_cons hk
  simp only [pivotNorm] at hr
  simp only [qrLoop, hdrop, List.map_cons, List.getD_cons_zero,
    Nat.add_zero, listSwap_self]
  rw [if_neg (not_not_intro hr)]

/-- One unfolding of the `modified_QR` loop at a position `k` inside the
matrix, in the continuing case: the argmax is discarded (`idx = 0`), the
swap is the identity, column `k` is normalized and deflated out of the
remaining columns, and the loop continues at `k + 1`. -/
theorem qrLoop_succ_go (M : Mat) (fuel k : ℕ) (Q : Mat) (perm : List ℕ)
    (hk : k < Q.length) (hr : ¬ pivotNorm M (Q.getD k []) < 1e-12) :
    qrLoop M (fuel + 1) k Q perm =
      qrLoop M fuel (k + 1)
        (Q.take k ++ [normCol M (Q.getD k [])] ++
          (Q.drop (k + 1)).map (deflateBy M (normCol M (Q.getD k []))))
        perm := by
  have hgetD : Q.getD k [] = Q.get ⟨k, hk⟩ := by
    simp [List.getD_eq_getElem?_getD, List.getElem?_eq_getElem hk]
  have hdrop : Q.drop k = Q.getD k [] :: Q.drop (k + 1) := by
    rw [hgetD]; exact List.drop_eq_getElem_cons hk
  simp only [pivotNorm] at hr
  simp only [qrLoop, hdrop, List.map_cons, List.getD_cons_zero,
    Nat.add_zero, listSwap_self]
  rw [if_pos hr]
  rfl

/-- The loop with the remaining-iteration count matching the remaining
columns behaves exactly like plain no-pivot Gram–Schmidt on the columns
from position `k` on: the permutation is untouched, the width of `Q` is
preserved, the reported rank is `k` plus the number of columns
Gram–Schmidt produces, and the first `rank` columns are the processed
prefix. -/
theorem qrLoop_spec (M : Mat) (fuel : ℕ) :
    ∀ (k : ℕ) (Q : Mat) (perm : List ℕ), Q.length = k + fuel →
      (qrLoop M fuel k Q perm).2.1 = perm ∧
      (qrLoop M fuel k Q perm).1.length = Q.length ∧
      (qrLoop M fuel k Q perm).2.2 = k + (gsNoPivot M (Q.drop k)).length ∧
      (qrLoop M fuel k Q perm).1.take (qrLoop M fuel k Q perm).2.2 =
        Q.take k ++ gsNoPivot M (Q.drop k) := by
  induction fuel with
  | zero =>
      intro k Q perm hlen
      have hdrop : Q.drop k = [] := List.drop_eq_nil_of_le (by omega)
      have htake : Q.take k = Q := List.take_of_length_le (by omega)
      simp [qrLoop, hdrop, gsNoPivot, htake]
  | succ fuel ih =>
      intro k Q perm hlen
      have hk : k < Q.length := by omega
      have hdrop : Q.drop k = Q.getD k [] :: Q.drop (k + 1) := by
        have h1 : Q.drop k = Q.get ⟨k, hk⟩ :: Q.drop (k + 1) :=
          List.drop_eq_getElem_cons hk
        have h2 : Q.getD k [] = Q.get ⟨k, hk⟩ := by
          simp [List.getD_eq_getElem?_getD, List.getElem?_eq_getElem hk]
        rw [h2]; exact h1
      by_cases hr : pivotNorm M (Q.getD k []) < 1e-12
      · rw [qrLoop_succ_stop M fuel k Q perm hk hr, hdrop,
          gsNoPivot_cons_stop M _ _ hr]
        exact ⟨rfl, rfl, by simp, by simp⟩
      · rw [qrLoop_succ_go M fuel k Q perm hk hr]
        set qk := normCol M (Q.getD k []) with hqk
        set Q2 := Q.take k ++ [qk] ++ (Q.drop (k + 1)).map (deflateBy M qk)
          with hQ2
        have htk : (Q.take k).length = k := by
          rw [List.length_take]; omega
        have hlen2 : Q2.length = (k + 1) + fuel := by
          simp only [hQ2, List.length_append, List.length_map, List.length_drop,
            htk, List.length_cons, List.length_nil]
          omega
        obtain ⟨ihp, ihl, ihr, iht⟩ := ih (k + 1) Q2 perm hlen2
        have hQ2take : Q2.take (k + 1) = Q.take k ++ [qk] := by
          rw [hQ2, List.append_assoc]
          rw [show k + 1 = (Q.take k).length + 1 by omega]
          rw [List.take_append]
          simp
        have hQ2drop : Q2.drop (k + 1) = (Q.drop (k + 1)).map (deflateBy M qk) := by
          rw [hQ2, List.append_assoc]
          rw [show k + 1 = (Q.take k).length + 1 by omega]
          rw [List.drop_append]
          simp
        have hgs : gsNoPivot M (Q.drop k) =
            qk :: gsNoPivot M ((Q.drop (k + 1)).map (deflateBy M qk)) := by
          rw [hdrop, gsNoPivot_cons_go M _ _ hr]
        refine ⟨ihp, ?_, ?_, ?_⟩
        · rw [ihl, hlen2, hlen]; omega
        · rw [ihr, hQ2drop, hgs]
          simp only [List.length_cons]
          omega
        · rw [iht, hQ2take, hQ2drop, hgs]
          simp [List.append_assoc]

theorem parse_backend_cpu (n : ℕ) : parse_backend ("cpu") n = .ok ("cpu") := rfl

/-- `modified_QR` is exactly no-pivot Gram–Schmidt in the original column
order: the permutation machinery is inert because the argmax is
discarded. -/
theorem modified_QR_core_eq (A M : Mat) :
    modified_QR_core A M = gsNoPivot M A := by
  unfold modified_QR_core
  simp only []
  set res := qrLoop M A.length 0 A (List.range A.length) with hres
  obtain ⟨hp, hl, hr, ht⟩ :=
    qrLoop_spec M A.length 0 A (List.range A.length) (by omega)
  rw [← hres] at hp hl hr ht
  rw [hp]
  have hmap : (List.range A.length).map (fun i => res.1.getD i []) = res.1 := by
    rw [← hl]
    exact map_getD_range _ _
  rw [hmap]
  simpa using ht

theorem modified_QR_cpu_ok (A : Mat) (M? : Option Mat) :
    modified_QR A ("cpu") M? =
      .ok (gsNoPivot (M?.getD (idMat (numRows A))) A) := by
  rw [modified_QR, parse_backend_cpu, modified_QR_core_eq]

theorem sqrt_four : Real.sqrt 4 = 2 := by
  rw [show (4:ℝ) = 2 ^ 2 by norm_num, Real.sqrt_sq (by norm_num : (0:ℝ) ≤ 2)]

theorem pivotNorm_e1 : pivotNorm (idMat 2) [(1:ℝ), 0] = 1 := by
  norm_num [pivotNorm, dot, matVec, idMat, sumCols, colSmul, colAdd]

theorem pivotNorm_zero2 : pivotNorm (idMat 2) [(0:ℝ), 0] = 0 := by
  norm_num [pivotNorm, dot, matVec, idMat, sumCols, colSmul, colAdd]

theorem normCol_e1 : normCol (idMat 2) [(1:ℝ), 0] = [(1:ℝ), 0] := by
  norm_num [normCol, pivotNorm_e1, colSmul]

/-- No-pivot Gram–Schmidt on two identical unit columns keeps only the
first: the second deflates to zero and the loop stops at rank 1. -/
theorem gsNoPivot_dup :
    gsNoPivot (idMat 2) [[(1:ℝ), 0], [1, 0]] = [[(1:ℝ), 0]] := by
  have h1 : ¬ pivotNorm (idMat 2) [(1:ℝ), 0] < 1e-12 := by
    rw [pivotNorm_e1]; norm_num
  rw [gsNoPivot_cons_go _ _ _ h1]
  have hdefl : ([[(1:ℝ), 0]]).map (deflateBy (idMat 2) (normCol (idMat 2) [(1:ℝ), 0])) =
      [[(0:ℝ), 0]] := by
    rw [normCol_e1]
    norm_num [deflateBy, dot, matVec, idMat, sumCols, colSmul, colAdd, colSub]
  rw [hdefl]
  have h2 : pivotNorm (idMat 2) [(0:ℝ), 0] < 1e-12 := by
    rw [pivotNorm_zero2]; norm_num
  rw [gsNoPivot_cons_stop _ _ _ h2, normCol_e1]

/-- No-pivot Gram–Schmidt on columns `(1,0)` and `(2,0)`: the first
column is kept (already unit), the second deflates to zero. -/
theorem gsNoPivot_colinear :
    gsNoPivot (idMat 2) [[(1:ℝ), 0], [2, 0]] = [[(1:ℝ), 0]] := by
  have h1 : ¬ pivotNorm (idMat 2) [(1:ℝ), 0] < 1e-12 := by
    rw [pivotNorm_e1]; norm_num
  rw [gsNoPivot_cons_go _ _ _ h1]
  have hdefl : ([[(2:ℝ), 0]]).map (deflateBy (idMat 2) (normCol (idMat 2) [(1:ℝ), 0])) =
      [[(0:ℝ), 0]] := by
    rw [normCol_e1]
    norm_num [deflateBy, dot, matVec, idMat, sumCols, colSmul, colAdd, colSub]
  rw [hdefl]
  have h2 : pivotNorm (idMat 2) [(0:ℝ), 0] < 1e-12 := by
    rw [pivotNorm_zero2]; norm_num
  rw [gsNoPivot_cons_stop _ _ _ h2, normCol_e1]

/-- Evaluating the spec-modelled pivoted variant on columns `(1,0)` and
`(2,0)` with the identity metric: the argmax selects column 1 (weighted
norm 4 against 1), the swap brings it to the front, deflation zeroes the
other column, and the inverse permutation puts the zero column first, so
the returned single column is the zero column. -/
theorem modified_QR_pivoted_colinear :
    modified_QR_pivoted [[(1:ℝ), 0], [2, 0]] ("cpu") none = .ok [[(0:ℝ), 0]] := by
  have hs0 : Real.sqrt |(0:ℝ)| = 0 := by norm_num
  norm_num [modified_QR_pivoted, parse_backend_cpu, qrLoopPivoted, argmaxIdx,
    argmaxAux, listSwap, numRows, idMat, dot, matVec, sumCols, colAdd, colSub,
    colSmul, sqrt_four, hs0, List.range_succ]

/-!  ## `DynamicalSystems/utils.py`: `rSVD`

External scipy/numpy routines used by `rSVD` (the Gaussian sketch
`np.random.randn`, the positive-definite solver `scipy.linalg.solve`, the
symmetric eigensolver `scipy.linalg.eigh`, and the spectral norm
`np.linalg.norm(·, ord=2)`) are not part of this repository, so they are
oracle parameters. -/

structure NumOracles where
  randn : ℕ → ℕ → Mat
  solve : Mat → Mat → Mat
  eigh : Mat → List ℝ × Mat
  specNorm : Mat → ℝ

/-- One round of the power-iteration loop of `rSVD`:
`KyO = Ky@Omega; Omega = KyO - n*reg*solve(Kx+n*reg*np.eye(n), KyO)`. -/
noncomputable def rSVD_powerStep (solve : Mat → Mat → Mat) (Kx Ky : Mat)
    (n : ℕ) (reg : ℝ) (Om : Mat) : Mat :=
  let KyO := matMul Ky Om
  matSub KyO (matSmul ((n : ℝ) * reg)
    (solve (matAdd Kx (matSmul ((n : ℝ) * reg) (idMat n))) KyO))

/-- The effective target rank: taken as given, or, when `None`, estimated
as `int(np.trace(Ky)/np.linalg.norm(Ky, ord=2))` (integer truncation of a
nonnegative ratio). -/
noncomputable def rSVD_rank (or : NumOracles) (Ky : Mat) (rank? : Option ℕ) : ℕ :=
  match rank? with
  | some r => r
  | none => Nat.floor (traceMat Ky / or.specNorm Ky)

/-- The sketch fed to `modified_QR`: a Gaussian `n × (rank+offset)` draw
with unit-normalized columns, `powers` power-iteration rounds, then the
final solve `Omega = solve(Kx+n*reg*np.eye(n), Ky@Omega)`. -/
noncomputable def rSVD_sketch (or : NumOracles) (Kx Ky : Mat) (reg : ℝ)
    (rank? : Option ℕ) (powers offset : ℕ) : Mat :=
  let n := numRows Kx
  let l := rSVD_rank or Ky rank? + offset
  let Om0 := or.randn n l
  let Om1 := Om0.map (fun c => c.map (fun x => x / Real.sqrt (dot c c)))
  let Om2 := Nat.iterate (rSVD_powerStep or.solve Kx Ky n reg) powers Om1
  or.solve (matAdd Kx (matSmul ((n : ℝ) * reg) (idMat n))) (matMul Ky Om2)

/-- The orthogonalization metric `Kx@Kx/n + Kx*reg`. -/
noncomputable def rSVD_metric (Kx : Mat) (n : ℕ) (reg : ℝ) : Mat :=
  matAdd (matSmul (1 / (n : ℝ)) (matMul Kx Kx)) (matSmul reg Kx)

/-- The reconstruction stage of `rSVD` after orthogonalization: project
(`C = Kx@Q`), eigendecompose `(C.T @ Ky) @ C`, keep the top `rank`
eigenpairs (scipy's `eigh` returns ascending order, hence the reversal),
scale the eigenvalues by `n⁻²`, and lift `U = Q @ evecs`, `V = Kx @ U`. -/
noncomputable def rSVD_UVs (or : NumOracles) (Kx Ky : Mat) (n rank : ℕ)
    (Q : Mat) : Mat × Mat × List ℝ :=
  let C := matMul Kx Q
  let ev := or.eigh (matMul (matMul (transpose C) Ky) C)
  let svals2 := (ev.1.reverse.map (fun x => x / ((n : ℝ) ^ 2))).take rank
  let evecs := ev.2.reverse.take rank
  let U := matMul Q evecs
  let V := matMul Kx U
  (U, V, svals2)

/-- The l1 residual of the generalized eigenrelation:
`np.linalg.norm(Ky@V/n - (V+n*reg*U)@np.diag(svals2), ord=1)`. -/
noncomputable def rSVD_residual (Ky : Mat) (n : ℕ) (reg : ℝ) (U V : Mat)
    (svals2 : List ℝ) : ℝ :=
  matNorm1 (matSub (matSmul (1 / (n : ℝ)) (matMul Ky V))
    (matMul (matAdd V (matSmul ((n : ℝ) * reg) U)) (diagMat svals2)))

/-- Embedding of `rSVD(Kx, Ky, reg, rank, powers, offset, tol)` from
`DynamicalSystems/utils.py`.  The boolean records whether the
generalized-eigenrelation warning was printed; note the check compares
against the literal `1e-6`, never reading the `tol` argument.  The
rank-deficiency message at `Q.shape[1] < rank` and the eigenvalue print
are diagnostics with no observable effect and are not recorded. -/
noncomputable def rSVD (or : NumOracles) (Kx Ky : Mat) (reg : ℝ)
    (rank? : Option ℕ) (powers offset : ℕ) (tol : ℝ) :
    Except PyError ((Mat × Mat × List ℝ) × Bool) :=
  let n := numRows Kx
  let rank := rSVD_rank or Ky rank?
  match modified_QR (rSVD_sketch or Kx Ky reg rank? powers offset) ("cpu")
      (some (rSVD_metric Kx n reg)) with
  | .error e => .error e
  | .ok Q =>
      let uvs := rSVD_UVs or Kx Ky n rank Q
      .ok (uvs, decide (1e-6 < rSVD_residual Ky n reg uvs.1 uvs.2.1 uvs.2.2))

/-!  ### Linearity lemmas for column-list matrices  -/

theorem colSmul_colSmul (a b : ℝ) (v : Col) :
    colSmul a (colSmul b v) = colSmul (a * b) v := by
  simp [colSmul, List.map_map, Function.comp, mul_assoc]

theorem colSmul_colAdd (a : ℝ) (u v : Col) :
    colSmul a (colAdd u v) = colAdd (colSmul a u) (colSmul a v) := by
  induction u generalizing v with
  | nil => simp [colSmul, colAdd]
  | cons x xs ih =>
      cases v with
      | nil => simp [colSmul, colAdd]
      | cons y ys =>
          show (a * (x + y)) :: colSmul a (colAdd xs ys) =
            (a * x + a * y) :: colAdd (colSmul a xs) (colSmul a ys)
          rw [ih ys, mul_add]

theorem colSub_colSmul (a b : ℝ) (v : Col) :
    colSub (colSmul a v) (colSmul b v) = colSmul (a - b) v := by
  induction v with
  | nil => simp [colSmul, colSub]
  | cons x xs ih =>
      show (a * x - b * x) :: colSub (colSmul a xs) (colSmul b xs) =
        ((a - b) * x) :: colSmul (a - b) xs
      rw [ih, sub_mul]

theorem colAdd_colSub_interchange (a b c d : Col) :
    colAdd (colSub a b) (colSub c d) = colSub (colAdd a c) (colAdd b d) := by
  induction a generalizing b c d with
  | nil => simp [colAdd, colSub]
  | cons x xs ih =>
      cases b with
      | nil => simp [colAdd, colSub]
      | cons y ys =>
          cases c with
          | nil => simp [colAdd, colSub]
          | cons z zs =>
              cases d with
              | nil => simp [colAdd, colSub]
              | cons w ws =>
                  simp only [colAdd, colSub, List.zipWith_cons_cons,
                    List.cons.injEq] at ih ⊢
                  exact ⟨by ring, ih ys zs ws⟩

theorem colAdd_interchange (a b c d : Col) :
    colAdd (colAdd a b) (colAdd c d) = colAdd (colAdd a c) (colAdd b d) := by
  induction a generalizing b c d with
  | nil => simp [colAdd]
  | cons x xs ih =>
      cases b with
      | nil => simp [colAdd]
      | cons y ys =>
          cases c with
          | nil => simp [colAdd]
          | cons z zs =>
              cases d with
              | nil => simp [colAdd]
              | cons w ws =>
                  simp only [colAdd, List.zipWith_cons_cons,
                    List.cons.injEq] at ih ⊢
                  exact ⟨by ring, ih ys zs ws⟩

theorem colSub_colAdd_cancel (x y : Col) (h : x.length ≤ y.length) :
    colSub (colAdd x y) y = x := by
  induction x generalizing y with
  | nil => simp [colAdd, colSub]
  | cons a as ih =>
      cases y with
      | nil => simp at h
      | cons b bs =>
          simp only [colAdd, colSub, List.zipWith_cons_cons, List.cons.injEq]
          exact ⟨by ring, ih bs (by simpa using h)⟩

theorem sumCols_map_colSmul (a : ℝ) (L : List Col) :
    sumCols (L.map (colSmul a)) = colSmul a (sumCols L) := by
  induction L with
  | nil => simp [sumCols, colSmul]
  | cons c rest ih =>
      cases rest with
      | nil => simp [sumCols]
      | cons c2 rest2 =>
          simp only [List.map_cons, sumCols] at ih ⊢
          rw [ih, colSmul_colAdd]

theorem sumCols_zipWith_colSub (P S : List Col) (h : P.length = S.length) :
    sumCols (List.zipWith colSub P S) = colSub (sumCols P) (sumCols S) := by
  induction P generalizing S with
  | nil =>
      cases S with
      | nil => simp [sumCols, colSub]
      | cons s ss => simp at h
  | cons p ps ih =>
      cases S with
      | nil => simp at h
      | cons s ss =>
          cases ps with
          | nil =>
              cases ss with
              | nil => simp [sumCols]
              | cons s2 ss2 => simp at h
          | cons p2 ps2 =>
              cases ss with
              | nil => simp at h
              | cons s2 ss2 =>
                  show colAdd (colSub p s)
                      (sumCols (List.zipWith colSub (p2 :: ps2) (s2 :: ss2))) =
                    colSub (colAdd p (sumCols (p2 :: ps2)))
                      (colAdd s (sumCols (s2 :: ss2)))
                  rw [ih (s2 :: ss2) (by simpa using h)]
                  rw [colAdd_colSub_interchange]

theorem sumCols_zipWith_colAdd (P S : List Col) (h : P.length = S.length) :
    sumCols (List.zipWith colAdd P S) = colAdd (sumCols P) (sumCols S) := by
  induction P generalizing S with
  | nil =>
      cases S with
      | nil => simp [sumCols, colAdd]
      | cons s ss => simp at h
  | cons p ps ih =>
      cases S with
      | nil => simp at h
      | cons s ss =>
          cases ps with
          | nil =>
              cases ss with
              | nil => simp [sumCols]
              | cons s2 ss2 => simp at h
          | cons p2 ps2 =>
              cases ss with
              | nil => simp at h
              | cons s2 ss2 =>
                  show colAdd (colAdd p s)
                      (sumCols (List.zipWith colAdd (p2 :: ps2) (s2 :: ss2))) =
                    colAdd (colAdd p (sumCols (p2 :: ps2)))
                      (colAdd s (sumCols (s2 :: ss2)))
                  rw [ih (s2 :: ss2) (by simpa using h)]
                  rw [colAdd_interchange]

theorem zipWith_colSmul_colSub (u : Col) : ∀ (v : Col) (A : Mat),
    u.length = v.length →
    List.zipWith colSmul (colSub u v) A =
      List.zipWith colSub (List.zipWith colSmul u A)
        (List.zipWith colSmul v A) := by
  induction u with
  | nil => intro v A h; simp [colSub]
  | cons x xs ih =>
      intro v A h
      cases v with
      | nil => simp at h
      | cons y ys =>
          cases A with
          | nil => simp [colSub]
          | cons c cs =>
              show colSmul (x - y) c ::
                  List.zipWith colSmul (colSub xs ys) cs =
                colSub (colSmul x c) (colSmul y c) ::
                  List.zipWith colSub (List.zipWith colSmul xs cs)
                    (List.zipWith colSmul ys cs)
              rw [ih ys cs (by simpa using h), colSub_colSmul]

theorem matVec_colSub (A : Mat) (u v : Col) (h : u.length = v.length) :
    matVec A (colSub u v) = colSub (matVec A u) (matVec A v) := by
  unfold matVec
  rw [zipWith_colSmul_colSub u v A h]
  apply sumCols_zipWith_colSub
  simp only [List.length_zipWith, h]

theorem zipWith_colSmul_colAdd_mat (v : Col) : ∀ (P Q : Mat),
    P.length = Q.length →
    List.zipWith colSmul v (List.zipWith colAdd P Q) =
      List.zipWith colAdd (List.zipWith colSmul v P)
        (List.zipWith colSmul v Q) := by
  induction v with
  | nil => intro P Q h; simp
  | cons x xs ih =>
      intro P Q h
      cases P with
      | nil => simp
      | cons p ps =>
          cases Q with
          | nil => simp at h
          | cons q qs =>
              show colSmul x (colAdd p q) ::
                  List.zipWith colSmul xs (List.zipWith colAdd ps qs) =
                colAdd (colSmul x p) (colSmul x q) ::
                  List.zipWith colAdd (List.zipWith colSmul xs ps)
                    (List.zipWith colSmul xs qs)
              rw [ih ps qs (by simpa using h), colSmul_colAdd]

theorem matVec_matAdd (P Q : Mat) (v : Col) (h : P.length = Q.length) :
    matVec (matAdd P Q) v = colAdd (matVec P v) (matVec Q v) := by
  unfold matVec matAdd
  rw [zipWith_colSmul_colAdd_mat v P Q h]
  apply sumCols_zipWith_colAdd
  simp only [List.length_zipWith, h]

theorem zipWith_colSmul_smul_left (a : ℝ) (v : Col) : ∀ (A : Mat),
    List.zipWith colSmul (colSmul a v) A =
      (List.zipWith colSmul v A).map (colSmul a) := by
  induction v with
  | nil => intro A; simp [colSmul]
  | cons x xs ih =>
      intro A
      cases A with
      | nil => simp [colSmul]
      | cons c cs =>
          show colSmul (a * x) c ::
              List.zipWith colSmul (colSmul a xs) cs =
            colSmul a (colSmul x c) ::
              (List.zipWith colSmul xs cs).map (colSmul a)
          rw [ih cs, colSmul_colSmul]

theorem matVec_colSmul (A : Mat) (a : ℝ) (v : Col) :
    matVec A (colSmul a v) = colSmul a (matVec A v) := by
  unfold matVec
  rw [zipWith_colSmul_smul_left a v A, sumCols_map_colSmul]

theorem zipWith_colSmul_smul_right (a : ℝ) (v : Col) : ∀ (M : Mat),
    List.zipWith colSmul v (M.map (colSmul a)) =
      (List.zipWith colSmul v M).map (colSmul a) := by
  induction v with
  | nil => intro M; simp
  | cons x xs ih =>
      intro M
      cases M with
      | nil => simp
      | cons c cs =>
          show colSmul x (colSmul a c) ::
              List.zipWith colSmul xs (cs.map (colSmul a)) =
            colSmul a (colSmul x c) ::
              (List.zipWith colSmul xs cs).map (colSmul a)
          rw [ih cs, colSmul_colSmul, colSmul_colSmul, mul_comm]

theorem matVec_matSmul (M : Mat) (a : ℝ) (v : Col) :
    matVec (matSmul a M) v = colSmul a (matVec M v) := by
  unfold matVec matSmul
  rw [zipWith_colSmul_smul_right a v M, sumCols_map_colSmul]

theorem colAdd_replicate_zero (n : ℕ) (u : Col) (h : u.length = n) :
    colAdd (List.replicate n 0) u = u := by
  induction u generalizing n with
  | nil => subst h; simp [colAdd]
  | cons x xs ih =>
      cases n with
      | zero => simp at h
      | succ m =>
          simp only [List.replicate, colAdd, List.zipWith_cons_cons,
            List.cons.injEq]
          exact ⟨by ring, ih m (by simpa using h)⟩

theorem idMat_length (n : ℕ) : (idMat n).length = n := by
  induction n with
  | zero => simp [idMat]
  | succ k ih => simp [idMat, ih]

theorem sumCols_cons_of_ne (c : Col) (L : List Col) (h : L ≠ []) :
    sumCols (c :: L) = colAdd c (sumCols L) := by
  cases L with
  | nil => exact absurd rfl h
  | cons d ds => rfl

theorem zipWith_colSmul_map_cons_zero (xs : Col) : ∀ (Mm : Mat),
    List.zipWith colSmul xs (Mm.map (fun c => (0:ℝ) :: c)) =
      (List.zipWith colSmul xs Mm).map (fun c => (0:ℝ) :: c) := by
  induction xs with
  | nil => intro Mm; simp
  | cons y ys ih =>
      intro Mm
      cases Mm with
      | nil => simp
      | cons c cs =>
          show colSmul y ((0:ℝ) :: c) ::
              List.zipWith colSmul ys (cs.map (fun c => (0:ℝ) :: c)) =
            ((0:ℝ) :: colSmul y c) ::
              (List.zipWith colSmul ys cs).map (fun c => (0:ℝ) :: c)
          rw [ih cs]
          congr 1
          simp [colSmul]

theorem sumCols_map_cons_zero (L : List Col) (h : L ≠ []) :
    sumCols (L.map (fun c => (0:ℝ) :: c)) = (0:ℝ) :: sumCols L := by
  induction L with
  | nil => exact absurd rfl h
  | cons c cs ih =>
      cases cs with
      | nil => simp [sumCols]
      | cons c2 cs2 =>
          show colAdd ((0:ℝ) :: c) (sumCols ((c2 :: cs2).map (fun c => (0:ℝ) :: c))) =
            (0:ℝ) :: colAdd c (sumCols (c2 :: cs2))
          rw [ih (by simp)]
          show ((0:ℝ) + 0) :: colAdd c (sumCols (c2 :: cs2)) =
            (0:ℝ) :: colAdd c (sumCols (c2 :: cs2))
          norm_num

theorem matVec_idMat (n : ℕ) : ∀ (v : Col), v.length = n →
    matVec (idMat n) v = v := by
  induction n with
  | zero =>
      intro v h
      rw [List.length_eq_zero.mp h]
      simp [matVec, idMat, sumCols]
  | succ m ih =>
      intro v h
      cases v with
      | nil => simp at h
      | cons x xs =>
          have hxs : xs.length = m := by simpa using h
          show sumCols (List.zipWith colSmul (x :: xs)
            (((1:ℝ) :: List.replicate m 0) ::
              (idMat m).map (fun c => (0:ℝ) :: c))) = x :: xs
          rw [show List.zipWith colSmul (x :: xs)
              (((1:ℝ) :: List.replicate m 0) ::
                (idMat m).map (fun c => (0:ℝ) :: c)) =
            colSmul x ((1:ℝ) :: List.replicate m 0) ::
              List.zipWith colSmul xs ((idMat m).map (fun c => (0:ℝ) :: c))
            from rfl]
          rw [zipWith_colSmul_map_cons_zero]
          rcases Nat.eq_zero_or_pos m with hm | hm
          · subst hm
            rw [List.length_eq_zero.mp hxs]
            simp [idMat, sumCols, colSmul]
          · have hzw_ne : List.zipWith colSmul xs (idMat m) ≠ [] := by
              have h1 : (List.zipWith colSmul xs (idMat m)).length = m := by
                simp [List.length_zipWith, hxs, idMat_length]
              intro hc
              rw [hc] at h1
              simp at h1
              omega
            rw [sumCols_cons_of_ne _ _ (by
              intro hc
              exact hzw_ne (List.map_eq_nil_iff.mp hc))]
            have hrec : sumCols (List.zipWith colSmul xs (idMat m)) = xs :=
              ih xs hxs
            rw [sumCols_map_cons_zero _ hzw_ne, hrec]
            show (x * 1 + 0) :: colAdd (colSmul x (List.replicate m 0)) xs =
              x :: xs
            rw [show colSmul x (List.replicate m 0) = List.replicate m (0:ℝ) by
              simp [colSmul, List.map_replicate]]
            rw [colAdd_replicate_zero m xs hxs]
            norm_num

theorem mem_zipWith_colSmul_length (m : ℕ) : ∀ (v : Col) (A : Mat),
    (∀ c ∈ A, c.length = m) →
    ∀ d ∈ List.zipWith colSmul v A, d.length = m := by
  intro v
  induction v with
  | nil => intro A hA d hd; simp at hd
  | cons x xs ih =>
      intro A hA d hd
      cases A with
      | nil => simp at hd
      | cons c cs =>
          simp only [List.zipWith_cons_cons, List.mem_cons] at hd
          rcases hd with hd | hd
          · subst hd
            simp only [colSmul, List.length_map]
            exact hA c (by simp)
          · exact ih cs (fun e he => hA e (by simp [he])) d hd

theorem sumCols_length_le (m : ℕ) : ∀ (L : List Col),
    (∀ c ∈ L, c.length = m) → (sumCols L).length ≤ m := by
  intro L
  induction L with
  | nil => intro _; simp [sumCols]
  | cons c cs ih =>
      intro h
      cases cs with
      | nil => simp [sumCols, h c (by simp)]
      | cons c2 cs2 =>
          rw [sumCols_cons_of_ne _ _ (by simp)]
          have h1 := h c (by simp)
          have h2 := ih (fun d hd => h d (by simp [hd]))
          simp only [colAdd, List.length_zipWith]
          omega

theorem matVec_length_le (A : Mat) (v : Col) (m : ℕ)
    (hA : ∀ c ∈ A, c.length = m) : (matVec A v).length ≤ m :=
  sumCols_length_le m _ (mem_zipWith_colSmul_length m v A hA)

/-- One column of the power-iteration update: if `s` solves the
regularized system for the column `b` of `Ky·Ω`, then applying
`Kx + α·I` to the updated column `b − α·s` lands on `Kx·b`. -/
theorem powerStep_col (Kx : Mat) (n : ℕ) (α : ℝ)
    (hKxl : Kx.length = n) (hKxc : ∀ c ∈ Kx, c.length = n)
    (b s : Col) (hsb : s.length = b.length) (hbn : b.length = n)
    (hAs : matVec (matAdd Kx (matSmul α (idMat n))) s = b) :
    matVec (matAdd Kx (matSmul α (idMat n))) (colSub b (colSmul α s)) =
      matVec Kx b := by
  rw [matVec_colSub _ b (colSmul α s) (by simp [colSmul, hsb])]
  rw [matVec_colSmul, hAs]
  rw [matVec_matAdd Kx (matSmul α (idMat n)) b
    (by simp [matSmul, idMat_length, hKxl])]
  rw [matVec_matSmul, matVec_idMat n b hbn]
  apply colSub_colAdd_cancel
  have hle := matVec_length_le Kx b n hKxc
  simp only [colSmul, List.length_map, hbn]
  omega

/-!  ## `legacy_code/koopman_regression.py`: spectra

The scipy eigensolvers (`scipy.linalg.eigvals`, `scipy.linalg.eig`,
`scipy.sparse.linalg.eigs`, `np.linalg.pinv`) are external and appear as
oracle parameters returning complex spectra. -/

noncomputable instance : DecidableRel (fun a b : ℂ => Complex.abs a ≤ Complex.abs b) :=
  fun a b => Real.decidableLE _ _

instance : IsTotal ℂ (fun a b : ℂ => Complex.abs a ≤ Complex.abs b) :=
  ⟨fun a b => le_total _ _⟩

instance : IsTrans ℂ (fun a b : ℂ => Complex.abs a ≤ Complex.abs b) :=
  ⟨fun _ _ _ hab hbc => le_trans hab hbc⟩

/-- The eigenvalue sorting stage shared by both `eig()` implementations:
`idx_ = np.argsort(np.abs(self._evals))[::-1]; self._evals =
self._evals[idx_]` — a stable ascending sort by modulus followed by
reversal. -/
noncomputable def sortEvalsModDesc (l : List ℂ) : List ℂ :=
  (List.insertionSort (fun a b => Complex.abs a ≤ Complex.abs b) l).reverse

theorem sortEvalsModDesc_sorted (l : List ℂ) :
    List.Pairwise (fun a b : ℂ => Complex.abs b ≤ Complex.abs a)
      (sortEvalsModDesc l) := by
  unfold sortEvalsModDesc
  rw [List.pairwise_reverse]
  exact List.sorted_insertionSort _ l

/-- Embedding of `KernelRidgeRegression.eigvals(k)`: build the
regularized matrix `K_reg` and return the external solver's eigenvalues
as they come — no sorting is applied.  `geigvals` stands for
`scipy.linalg.eigvals(A, B)` and `speigs` for
`scipy.sparse.linalg.eigs(A, k, B, return_eigenvectors=False)`. -/
noncomputable def KernelRidgeRegression_eigvals
    (geigvals : Mat → Mat → List ℂ) (speigs : Mat → ℕ → Mat → List ℂ)
    (KYX KX : Mat) (tikhonov_reg : Option ℝ) (k : Option ℕ) : List ℂ :=
  let dim := numRows KX
  let K_reg := match tikhonov_reg with
    | some t => matAdd KX (matSmul (t * (dim : ℝ)) (idMat dim))
    | none => KX
  match k with
  | none => geigvals KYX K_reg
  | some kk => speigs KYX kk K_reg

/-- The eigenvalue component of `KernelRidgeRegression.eig()`: the raw
spectrum of the dense generalized problem (or of the pseudo-inverse form
when unregularized), sorted by descending modulus; the eigenvector
normalization that follows never modifies `_evals`. -/
noncomputable def KernelRidgeRegression_eig_evals
    (geig : Mat → Mat → List ℂ) (eig1 : Mat → List ℂ) (pinv : Mat → Mat)
    (KYX KX : Mat) (tikhonov_reg : Option ℝ) : List ℂ :=
  let dim := numRows KX
  match tikhonov_reg with
  | some t =>
      sortEvalsModDesc (geig KYX (matAdd KX (matSmul (t * (dim : ℝ)) (idMat dim))))
  | none => sortEvalsModDesc (eig1 (matMul (pinv KX) KYX))

/-- Embedding of `LowRankKoopmanRegression.eigvals()` (cpu path): form
`C = dim⁻¹ * (K_YX @ U)` and return `scipy.linalg.eigvals(V.T @ C)`
unsorted; the `k` argument is unused in low-rank estimators. -/
noncomputable def LowRankKoopmanRegression_eigvals (eigvalsO : Mat → List ℂ)
    (KX KYX U V : Mat) : List ℂ :=
  let dim_inv := ((numRows KX : ℝ))⁻¹
  let C := matSmul dim_inv (matMul KYX U)
  eigvalsO (matMul (transpose V) C)

/-- The eigenvalue component of `LowRankKoopmanRegression.eig()` (cpu
path): the spectrum of `V.T @ (dim⁻¹ K_YX U)`, sorted by descending
modulus. -/
noncomputable def LowRankKoopmanRegression_eig_evals (eigO : Mat → List ℂ)
    (KX KYX U V : Mat) : List ℂ :=
  let dim_inv := ((numRows KX : ℝ))⁻¹
  let C := matSmul dim_inv (matMul KYX U)
  sortEvalsModDesc (eigO (matMul (transpose V) C))

/-- An oracle recording the output order of
`scipy.linalg.eigvals(diag(1,2), I)`: LAPACK returns the diagonal order
`[1, 2]`, which is ascending in modulus. -/
noncomputable def geigvalsDiag : Mat → Mat → List ℂ := fun _ _ => [1, 2]

/-- Placeholder sparse-eigs oracle (the `k = None` path never calls it). -/
noncomputable def speigsUnused : Mat → ℕ → Mat → List ℂ := fun _ _ _ => []

/-!  ## `legacy_code/koopman_regression.py`: the `fit` / `eig` / `modes` /
`forecast` attribute protocol

`KoopmanRegression.modes` and `.forecast` drive their control flow by
catching `AttributeError`: reading a not-yet-assigned attribute raises,
`modes` then performs one implicit `self.eig()` and retries, while
`forecast` re-raises at once.  The embedding tracks which attribute
groups exist (`fit` attributes, the spectral bundle set by `eig`, the
modes matrix set by `modes`) and threads the state; `eigCalls` is a ghost
counter incremented at each entry into `eig()`, making the number of
implicit `eig()` calls observable. -/

/-- The spectral data set by `eig()`: the sorted eigenvalues, the right
eigenfunction values at the forecast query (`self._refuns(X)`, an
`[n, r]` complex matrix; the closure is abstracted by its value at the
query points), and `self._modes_to_invert`. -/
structure SpectralBundle where
  evals : List ℂ
  refunsX : List (List ℂ)
  modesToInvert : List (List ℂ)

/-- The attribute state of a low-rank estimator: `fitted` records the
attributes set by `fit` (`X`, `Y`, `K_X`, `K_Y`, `K_YX`, `U`, `V`),
`spectral` the bundle set by `eig()`, `modesMat` the `_modes` matrix set
by `modes()`; `eigCalls` is the ghost `eig()`-entry counter. -/
structure KoopState where
  fitted : Bool
  spectral : Option SpectralBundle
  modesMat : Option (List (List ℂ))
  eigCalls : ℕ

/-- `eig()` as the attribute protocol sees it: entry bumps the ghost
counter; the body reads the fit attributes — on a never-fitted estimator
this raises `AttributeError`, which the method's own except-clause
converts to the fit-first message — and otherwise stores a fresh spectral
bundle `sp`, the result of the external scipy decomposition of the
stored matrices. -/
def eigCall (sp : SpectralBundle) (s : KoopState) :
    KoopState × Except PyError Unit :=
  let s1 := { s with eigCalls := s.eigCalls + 1 }
  if s1.fitted then ({ s1 with spectral := some sp }, .ok ())
  else (s1, .error (.attributeError ("You must first fit the model.")))

/-- The body of `modes()` (the outer try block): reads `self.K_X`,
`self.Y`, `self.V` (fit attributes) and `self._modes_to_invert`
(spectral bundle); on success stores `self._modes`, the external
`scipy.linalg.lstsq` result abstracted as `lsq sp`. -/
def modesBody (lsq : SpectralBundle → List (List ℂ)) (s : KoopState) :
    KoopState × Except PyError Unit :=
  if s.fitted then
    match s.spectral with
    | some sp => ({ s with modesMat := some (lsq sp) }, .ok ())
    | none => (s, .error (.attributeError ("_modes_to_invert")))
  else (s, .error (.attributeError ("K_X")))

/-- `modes()` with its failure-driven retry: on `AttributeError` from the
body it calls `self.eig()` and then retries `self.modes(...)`, and any
`AttributeError` escaping that inner attempt is re-raised as
"You must first fit the model.".  The retry in the source is an
unbounded recursive call, so the embedding carries fuel (Python's
recursion limit); one retry always suffices because a successful `eig()`
establishes every attribute the body reads, so the fuel-exhausted arm is
unreachable from any state. -/
def modesFuel (sp : SpectralBundle) (lsq : SpectralBundle → List (List ℂ)) :
    ℕ → KoopState → KoopState × Except PyError Unit
  | 0, s => (s, .error (.recursionError ("maximum recursion depth exceeded")))
  | fuel + 1, s =>
      match modesBody lsq s with
      | (s1, .ok _) => (s1, .ok ())
      | (s1, .error (.attributeError _)) =>
          match eigCall sp s1 with
          | (s2, .ok _) =>
              match modesFuel sp lsq fuel s2 with
              | (s3, .ok _) => (s3, .ok ())
              | (s3, .error (.attributeError _)) =>
                  (s3, .error (.attributeError ("You must first fit the model.")))
              | (s3, .error e) => (s3, .error e)
          | (s2, .error (.attributeError _)) =>
              (s2, .error (.attributeError ("You must first fit the model.")))
          | (s2, .error e) => (s2, .error e)
      | (s1, .error e) => (s1, .error e)

/-- `modes()` entry point; 1000 is Python's default recursion limit. -/
def modesCall (sp : SpectralBundle) (lsq : SpectralBundle → List (List ℂ))
    (s : KoopState) : KoopState × Except PyError Unit :=
  modesFuel sp lsq 1000 s

/-- The Python value passed as the time argument `t` of `forecast`: a
scalar, a one-dimensional array, or a two-dimensional array. -/
inductive NpArg where
  | scalar (t : ℝ)
  | vec (ts : List ℝ)
  | arr2 (m : List (List ℝ))

/-- The `t` handling of `forecast`: `np.isscalar(t)` promotes a scalar to
the `[1, 1]` row `[[t]]`, a 1-d array becomes the `[1, nt]` row, and
anything else raises `ValueError("t must be a scalar or a vector.")`. -/
def forecastTimeRow : NpArg → Except PyError (List ℝ)
  | .scalar t => .ok [t]
  | .vec ts => .ok ts
  | .arr2 _ => .error (.valueError ("t must be a scalar or a vector."))

/-- `np.power(evals[:, None], t[None, :])`: the `[r, nt]` table of
complex powers `evals[ri] ** t[ti]`. -/
noncomputable def evalsPowTable (evals : List ℂ) (ts : List ℝ) :
    List (List ℂ) :=
  evals.map (fun ev => ts.map (fun t => ev ^ ((t : ℝ) : ℂ)))

/-- `np.einsum('ro,rt,nr->tno', modes, evals_t, refuns)`. -/
noncomputable def einsum_ro_rt_nr (modes evalsT refuns : List (List ℂ)) :
    List (List (List ℂ)) :=
  let r := modes.length
  let nt := (evalsT.headD []).length
  let no := (modes.headD []).length
  (List.range nt).map (fun ti =>
    refuns.map (fun refRow =>
      (List.range no).map (fun o =>
        ((List.range r).map (fun ri =>
          ((modes.getD ri []).getD o 0) * ((evalsT.getD ri []).getD ti 0) *
            (refRow.getD ri 0))).sum)))

/-- The array returned by `forecast`: 2-d when a single time point was
given (the time axis is squeezed), 3-d otherwise; entries are real parts. -/
inductive NpOut where
  | d2 (a : List (List ℝ))
  | d3 (a : List (List (List ℝ)))

/-- Embedding of `KoopmanRegression.forecast(X, t, which)`.  The try
block first reads `self._evals`, `self._refuns`, `self._modes` (the
`which` selection uses numpy fancy indexing); a missing attribute raises
`AttributeError`, caught by the except-clause and re-raised with the
fit-and-modes message.  The `ValueError` for a malformed `t` is not an
`AttributeError` and propagates.  `forecast` mutates nothing and in
particular never calls `eig()`: the returned state is the input state.
(The numpy `IndexError` on an empty time vector is not modelled.) -/
noncomputable def forecastCall (s : KoopState) (t : NpArg)
    (which : Option (List ℕ)) : KoopState × Except PyError NpOut :=
  match s.spectral, s.modesMat with
  | some sp, some m =>
      let evals := match which with
        | some w => selIdx sp.evals w 0
        | none => sp.evals
      let refuns := match which with
        | some w => sp.refunsX.map (fun row => selIdx row w 0)
        | none => sp.refunsX
      let modes := match which with
        | some w => selIdx m w []
        | none => m
      match forecastTimeRow t with
      | .error e => (s, .error e)
      | .ok ts =>
          let evalsT := evalsPowTable evals ts
          let forecasted := einsum_ro_rt_nr modes evalsT refuns
          if forecasted.length ≤ 1 then
            (s, .ok (.d2 ((forecasted.getD 0 []).map
              (fun row => row.map Complex.re))))
          else
            (s, .ok (.d3 (forecasted.map
              (fun sl => sl.map (fun row => row.map Complex.re)))))
  | _, _ =>
      (s, .error (.attributeError
        ("You must first fit the model and evaluate the modes with the \x27self.modes\x27 method.")))

/-!  ## `kooplearn/koopman_estimators/BaseKoopmanEstimator.py`  -/

/-- The estimator parameters read by
`BaseKoopmanEstimator._check_backend_solver_compatibility`. -/
structure KEParams where
  backend : String
  svd_solver : String
  iterated_power : Int
  n_oversamples : Int

/-- Embedding of `_check_backend_solver_compatibility`: the sequence of
eager `ValueError` checks, performed before any matrix computation. -/
def check_backend_solver_compatibility (p : KEParams) : Except PyError Unit :=
  if ¬ (p.backend = "numpy" ∨ p.backend = "keops") then
    .error (.valueError
      ("Invalid backend. Allowed values are \x27numpy\x27 and \x27keops\x27."))
  else if ¬ (p.svd_solver = "full" ∨ p.svd_solver = "arnoldi" ∨
      p.svd_solver = "randomized") then
    .error (.valueError
      ("Invalid svd_solver. Allowed values are \x27full\x27, \x27arnoldi\x27 and \x27randomized\x27."))
  else if p.svd_solver = "randomized" ∧ p.iterated_power < 0 then
    .error (.valueError ("Invalid iterated_power. Must be non-negative."))
  else if p.svd_solver = "randomized" ∧ p.n_oversamples < 0 then
    .error (.valueError ("Invalid n_oversamples. Must be non-negative."))
  else if p.svd_solver = "full" ∧ p.backend = "keops" then
    .error (.valueError
      ("Invalid backend and svd_solver combination. \x27keops\x27 backend is not compatible with \x27full\x27 svd_solver."))
  else .ok ()

/-- Embedding of the backend handling of
`KernelRidgeRegression.fit(X, Y, backend)`: any backend other than `cpu`
only triggers a warning ("Keops backend not implemented ... Forcing cpu
backend.") and the kernels are initialized with the hard-coded `cpu`
backend — no exception is raised for an unrecognized string.  Returns the
warning flag and the result of the `parse_backend` call performed inside
`_init_kernels` with the forced backend. -/
def KernelRidgeRegression_fit_backend (backend : String) (rows : ℕ) :
    Bool × Except PyError String :=
  (decide (backend ≠ "cpu"), parse_backend ("cpu") rows)

/-!  ## `legacy_code/koopman_regression.py`:
`PrincipalComponentRegression.fit`  -/

/-- numpy conversion of an ndarray used as a basic slice bound
(`operator.index` / `ndarray.__index__`): only size-1 arrays convert
(`True → 1`, `False → 0`); any other size raises `TypeError`. -/
def npIndexOfArray (tst : List Bool) : Except PyError ℕ :=
  match tst with
  | [b] => .ok (if b then 1 else 0)
  | _ => .error (.typeError
      ("only integer scalar arrays can be converted to a scalar index"))

/-- Embedding of `PrincipalComponentRegression.fit` on the cpu backend
after `_init_kernels`: eigendecompose `K_X` (oracle `eighO`, scipy
ascending order), keep the top `rank` pairs via `S[::-1][:rank]` and
`V[:,::-1][:,:rank]`, test `_test = S > 2.2e-16`, and either rescale
(`V * sqrt(dim)`, `U = V @ diag(S**-1) * sqrt(dim)`, rank unchanged) or
enter the rank-reduction branch.  That branch evaluates `V[:_test]` —
basic slicing with the boolean array as the slice stop, which converts
the array through `operator.index` and then row-slices — so with two or
more retained singular values it raises `TypeError` instead of selecting
the surviving columns.  (The intermediate `sigma_sq`/`sort_perm` values
of the source are dead in the cpu branch and omitted; the matmul shape
error on the unreachable 1-element path is not modelled.)  Returns
`(V, U, stored rank, warned)`. -/
noncomputable def PrincipalComponentRegression_fit_cpu
    (eighO : Mat → List ℝ × Mat) (rank : ℕ) (KX : Mat) :
    Except PyError (Mat × Mat × ℕ × Bool) :=
  let dim := numRows KX
  let SV := eighO KX
  let S := (SV.1.reverse).take rank
  let V := (SV.2.reverse).take rank
  let tst := S.map (fun s => decide ((2.2e-16 : ℝ) < s))
  if tst.all (fun b => b) then
    .ok (matSmul (Real.sqrt dim) V,
         matSmul (Real.sqrt dim) (matMul V (diagMat (S.map (fun x => x⁻¹)))),
         rank, false)
  else
    match npIndexOfArray tst with
    | .error e => .error e
    | .ok stop =>
        let Vred := V.map (fun c => c.take stop)
        let Vfin := matSmul (Real.sqrt dim) Vred
        match npIndexOfArray tst with
        | .error e => .error e
        | .ok stop2 =>
            let Sred := S.take stop2
            let Ufin := matSmul (Real.sqrt dim)
              (matMul Vred (diagMat (Sred.map (fun x => x⁻¹))))
            .ok (Vfin, Ufin, Vfin.length, true)

end Kooplearn

namespace Kooplearn

/-- C6: with mode `auto`, `parse_backend` returns the dense in-memory
backend `cpu` exactly when the sample count is strictly below 2000 and
the matrix-free backend `keops` otherwise; `cpu` and `keops` are
returned unchanged; every other mode string raises `ValueError`. -/
theorem parse_backend_spec (b : String) (rows : ℕ) :
    (b = "auto" →
      parse_backend b rows = .ok (if rows < 2000 then "cpu" else "keops")) ∧
    ((b = "cpu" ∨ b = "keops") → parse_backend b rows = .ok b) ∧
    (¬ (b = "auto" ∨ b = "cpu" ∨ b = "keops") →
      ∃ msg, parse_backend b rows = .error (.valueError msg)) := by
  refine ⟨?_, ?_, ?_⟩
  · rintro rfl
    by_cases h : rows < 2000 <;> simp [parse_backend, h]
  · rintro (rfl | rfl) <;> simp [parse_backend]
  · intro h
    push_neg at h
    obtain ⟨h1, h2, h3⟩ := h
    refine ⟨"Unrecognized backend \x27" ++ b ++
      "\x27. Accepted values are \x27auto\x27, \x27cpu\x27 or \x27keops\x27.", ?_⟩
    simp [parse_backend, h1, h2, h3]

/-- C6 witness: the three behaviours of `parse_backend` at concrete
inputs, obtained by applying `parse_backend_spec`. -/
theorem parse_backend_spec_witness :
    parse_backend ("auto") 1999 = .ok ("cpu") ∧
    parse_backend ("auto") 2000 = .ok ("keops") ∧
    parse_backend ("keops") 3 = .ok ("keops") ∧
    (∃ msg, parse_backend ("gpu") 3 = .error (.valueError msg)) := by
  refine ⟨?_, ?_, ?_, ?_⟩
  · have h := (parse_backend_spec ("auto") 1999).1 rfl
    simpa using h
  · have h := (parse_backend_spec ("auto") 2000).1 rfl
    simpa using h
  · exact (parse_backend_spec ("keops") 3).2.1 (Or.inr rfl)
  · exact (parse_backend_spec ("gpu") 3).2.2 (by decide)

/-- C3 counterexample: on the columns `(1,0)` and `(2,0)` with the default
identity metric, the remaining column of largest weighted residual norm
at step 0 is column 1 (norm squared 4 against 1, `np.argmax` gives 1),
yet `modified_QR` returns the normalized column 0; the spec-modelled
greedy-pivoting variant returns a different matrix, so no largest-norm
selection and swap takes place. -/
theorem modified_QR_pivot_selection_counterexample :
    argmaxIdx (([[(1:ℝ), 0], [2, 0]] : Mat).map
      (fun c => dot c (matVec (idMat 2) c))) = 1 ∧
    modified_QR [[(1:ℝ), 0], [2, 0]] ("cpu") none = .ok [[(1:ℝ), 0]] ∧
    modified_QR_pivoted [[(1:ℝ), 0], [2, 0]] ("cpu") none = .ok [[(0:ℝ), 0]] ∧
    (Except.ok [[(1:ℝ), 0]] : Except PyError Mat) ≠ .ok [[(0:ℝ), 0]] := by
  refine ⟨?_, ?_, modified_QR_pivoted_colinear, ?_⟩
  · norm_num [argmaxIdx, argmaxAux, dot, matVec, idMat, sumCols, colSmul, colAdd]
  · rw [modified_QR_cpu_ok]
    norm_num [numRows]
    exact gsNoPivot_colinear
  · intro h
    norm_num at h

/-- C3 (amended): at every elimination step `modified_QR` computes the
argmax of the weighted residual norms of the remaining columns but
discards it and selects index 0, so no swap occurs, the permutation stays
the identity, and the algorithm is exactly no-pivot weighted Gram–Schmidt
on the columns in their original order. -/
theorem modified_QR_selects_index_zero (A : Mat) (M? : Option Mat) :
    modified_QR A ("cpu") M? =
      .ok (gsNoPivot (M?.getD (idMat (numRows A))) A) :=
  modified_QR_cpu_ok A M?

/-- C4: `modified_QR` on the cpu backend never raises; it returns exactly
as many columns as the rank detected by the elimination loop (the number
of steps completed before the first pivot norm below `1e-12`), which is at
most the input width; and on the rank-deficient input with two identical
columns it stops after one step, returning the single normalized nonzero
column — rank 1, strictly less than the input width 2. -/
theorem modified_QR_rank_detection :
    (∀ (A : Mat) (M? : Option Mat), ∃ Q, modified_QR A ("cpu") M? = .ok Q ∧
      Q.length =
        (qrLoop (M?.getD (idMat (numRows A))) A.length 0 A
          (List.range A.length)).2.2 ∧
      Q.length ≤ A.length) ∧
    modified_QR [[(1:ℝ), 0], [1, 0]] ("cpu") none = .ok [[(1:ℝ), 0]] ∧
    (1 : ℕ) < ([[(1:ℝ), 0], [1, 0]] : Mat).length := by
  refine ⟨?_, ?_, by norm_num⟩
  · intro A M?
    refine ⟨gsNoPivot (M?.getD (idMat (numRows A))) A, modified_QR_cpu_ok A M?, ?_, ?_⟩
    · obtain ⟨_, _, hr, _⟩ :=
        qrLoop_spec (M?.getD (idMat (numRows A))) A.length 0 A
          (List.range A.length) (by omega)
      rw [hr]
      simp
    · exact gsNoPivot_length_le _ A.length A le_rfl
  · rw [modified_QR_cpu_ok]
    norm_num [numRows]
    exact gsNoPivot_dup

/-- C7: `rSVD` never hard-fails: for every oracle instantiation and every
input it returns `.ok` with the computed `(U, V, eigenvalues)` triple,
and the numerical warning flag is raised exactly when the l1 residual of
the generalized eigenrelation, evaluated on the returned triple, exceeds
the hard-coded threshold `1e-6` (the `tol` argument is never read); the
returned triple is the same whether or not the warning fires. -/
theorem rSVD_warns_but_returns (or : NumOracles) (Kx Ky : Mat) (reg : ℝ)
    (rank? : Option ℕ) (powers offset : ℕ) (tol : ℝ) :
    ∃ Q, modified_QR (rSVD_sketch or Kx Ky reg rank? powers offset) ("cpu")
        (some (rSVD_metric Kx (numRows Kx) reg)) = .ok Q ∧
      rSVD or Kx Ky reg rank? powers offset tol =
        .ok (rSVD_UVs or Kx Ky (numRows Kx) (rSVD_rank or Ky rank?) Q,
          decide (1e-6 < rSVD_residual Ky (numRows Kx) reg
            (rSVD_UVs or Kx Ky (numRows Kx) (rSVD_rank or Ky rank?) Q).1
            (rSVD_UVs or Kx Ky (numRows Kx) (rSVD_rank or Ky rank?) Q).2.1
            (rSVD_UVs or Kx Ky (numRows Kx) (rSVD_rank or Ky rank?) Q).2.2)) := by
  refine ⟨_, modified_QR_cpu_ok _ _, ?_⟩
  unfold rSVD
  simp only [modified_QR_cpu_ok, Option.getD_some]

/-- A concrete exact solve oracle for 1-dimensional systems whose matrix
is `[[3]]`: it returns `B/3`, the true solution of `[[3]] z = B`. -/
noncomputable def solveOracle3 : Mat → Mat → Mat := fun _ B => matSmul (1 / 3) B

/-- C8 counterexample: take `Kx = [[2]]`, `Ky = [[1]]`, `n = 1`,
`reg = 1`, `Ω = [[1]]`.  The regularized matrix is `Kx + n·reg·I = [[3]]`
and the oracle solution of `(Kx + n·reg·I) z = Ky·Ω = [[1]]` is
`z = [[1/3]]` (exact: `[[3]]·[[1/3]] = [[1]]`), but the power-iteration
round produces `Ky·Ω − n·reg·z = [[2/3]] ≠ z`: the round does not replace
the sketch by the solution of the regularized system. -/
theorem rSVD_powerStep_counterexample :
    matMul (matAdd [[(2:ℝ)]] (matSmul (((1:ℕ):ℝ) * 1) (idMat 1)))
        (solveOracle3 (matAdd [[(2:ℝ)]] (matSmul (((1:ℕ):ℝ) * 1) (idMat 1)))
          (matMul [[(1:ℝ)]] [[(1:ℝ)]])) = matMul [[(1:ℝ)]] [[(1:ℝ)]] ∧
    rSVD_powerStep solveOracle3 [[(2:ℝ)]] [[(1:ℝ)]] 1 1 [[(1:ℝ)]] = [[(2:ℝ)/3]] ∧
    solveOracle3 (matAdd [[(2:ℝ)]] (matSmul (((1:ℕ):ℝ) * 1) (idMat 1)))
        (matMul [[(1:ℝ)]] [[(1:ℝ)]]) = [[(1:ℝ)/3]] ∧
    ([[(2:ℝ)/3]] : Mat) ≠ [[(1:ℝ)/3]] := by
  refine ⟨?_, ?_, ?_, ?_⟩
  · norm_num [solveOracle3, matMul, matVec, sumCols, colSmul, colAdd,
      matAdd, matSmul, idMat]
  · norm_num [rSVD_powerStep, solveOracle3, matMul, matVec, sumCols,
      colSmul, colAdd, colSub, matAdd, matSub, matSmul, idMat]
  · norm_num [solveOracle3, matMul, matVec, sumCols, colSmul, colAdd,
      matAdd, matSmul, idMat]
  · intro h
    norm_num at h

/-- C8 (amended): each power-iteration round replaces the sketch by
`Ky·Ω − n·reg·z` where `z` is the solution of the regularized system
`(Kx + n·reg·I) z = Ky·Ω` — equivalently, whenever the solve oracle is
exact and the shapes are consistent, the new sketch is the solution of
`(Kx + n·reg·I) Ω' = Kx·Ky·Ω`; the plain solution `z` itself is used only
in the final post-loop solve of `rSVD`. -/
theorem rSVD_powerStep_solves_shifted_system (solve : Mat → Mat → Mat)
    (Kx Ky Om : Mat) (n : ℕ) (reg : ℝ)
    (hKxl : Kx.length = n) (hKxc : ∀ c ∈ Kx, c.length = n)
    (hB : ∀ c ∈ matMul Ky Om, c.length = n)
    (hS : List.Forall₂ (fun s b => s.length = b.length)
      (solve (matAdd Kx (matSmul ((n:ℝ) * reg) (idMat n))) (matMul Ky Om))
      (matMul Ky Om))
    (hexact : matMul (matAdd Kx (matSmul ((n:ℝ) * reg) (idMat n)))
      (solve (matAdd Kx (matSmul ((n:ℝ) * reg) (idMat n))) (matMul Ky Om)) =
      matMul Ky Om) :
    matMul (matAdd Kx (matSmul ((n:ℝ) * reg) (idMat n)))
      (rSVD_powerStep solve Kx Ky n reg Om) = matMul Kx (matMul Ky Om) := by
  have main : ∀ (S B : Mat),
      List.Forall₂ (fun s b => s.length = b.length) S B →
      (∀ c ∈ B, c.length = n) →
      S.map (matVec (matAdd Kx (matSmul ((n:ℝ) * reg) (idMat n)))) = B →
      (List.zipWith colSub B (S.map (colSmul ((n:ℝ) * reg)))).map
          (matVec (matAdd Kx (matSmul ((n:ℝ) * reg) (idMat n)))) =
        B.map (matVec Kx) := by
    intro S B hf
    induction hf with
    | nil => intro _ _; simp
    | cons h1 h2 ih =>
        rename_i s b S2 B2
        intro hBc hmap
        simp only [List.map_cons, List.cons.injEq] at hmap
        simp only [List.map_cons, List.zipWith_cons_cons, List.cons.injEq]
        constructor
        · exact powerStep_col Kx n ((n:ℝ) * reg) hKxl hKxc b s h1
            (hBc b (by simp)) hmap.1
        · exact ih (fun c hc => hBc c (by simp [hc])) hmap.2
  exact main _ _ hS hB hexact

/-- C2 counterexample: `eigvals()` returns the solver output unsorted;
for the diagonal pencil `K_YX = diag(1,2)`, `K_X = I` (solver order
`[1, 2]`) the returned sequence violates the claimed descending-modulus
invariant at indices `0 < 1`. -/
theorem eigvals_unsorted_counterexample :
    KernelRidgeRegression_eigvals geigvalsDiag speigsUnused
        [[(1:ℝ), 0], [0, 2]] [[(1:ℝ), 0], [0, 1]] none none = [1, 2] ∧
    ¬ List.Pairwise (fun a b : ℂ => Complex.abs b ≤ Complex.abs a)
        [(1 : ℂ), 2] := by
  constructor
  · rfl
  · intro h
    have h2 := (List.pairwise_cons.mp h).1 2 (by simp)
    rw [show Complex.abs 1 = 1 from map_one Complex.abs, Complex.abs_two] at h2
    norm_num at h2

/-- C2 (amended): the eigenvalue sequences returned by `eig()` — both the
kernel-ridge and the low-rank implementation — are sorted by descending
modulus; `eigvals()` returns the solver order without sorting (see the
counterexample). -/
theorem eig_evals_sorted_desc (geig : Mat → Mat → List ℂ)
    (eig1 : Mat → List ℂ) (pinv : Mat → Mat) (eigO : Mat → List ℂ)
    (KYX KX U V : Mat) (tikhonov_reg : Option ℝ) :
    List.Pairwise (fun a b : ℂ => Complex.abs b ≤ Complex.abs a)
      (KernelRidgeRegression_eig_evals geig eig1 pinv KYX KX tikhonov_reg) ∧
    List.Pairwise (fun a b : ℂ => Complex.abs b ≤ Complex.abs a)
      (LowRankKoopmanRegression_eig_evals eigO KX KYX U V) := by
  constructor
  · unfold KernelRidgeRegression_eig_evals
    cases tikhonov_reg
    · exact sortEvalsModDesc_sorted _
    · exact sortEvalsModDesc_sorted _
  · exact sortEvalsModDesc_sorted _

/-- C5 counterexample: on a fitted but not yet decomposed estimator,
`forecast` raises immediately: the ghost counter shows that no implicit
`eig()` call happens, contradicting the claimed "exactly one automatic
implicit call to eig() followed by a retry" (which would leave the
counter at 1). -/
theorem forecast_no_implicit_eig_counterexample :
    (forecastCall { fitted := true, spectral := none, modesMat := none,
                    eigCalls := 0 } (NpArg.scalar 1) none).1.eigCalls = 0 ∧
    (0 : ℕ) ≠ 0 + 1 ∧
    (forecastCall { fitted := true, spectral := none, modesMat := none,
                    eigCalls := 0 } (NpArg.scalar 1) none).2 =
      .error (.attributeError
        ("You must first fit the model and evaluate the modes with the \x27self.modes\x27 method.")) := by
  refine ⟨rfl, by norm_num, rfl⟩

/-- C5 (amended): `modes()` called before `eig()` performs exactly one
implicit `eig()` call and retries — on a fitted estimator the retry
succeeds, and on a never-fitted estimator the failed `eig()` is caught
and re-raised as `AttributeError("You must first fit the model.")`; but
`forecast()` performs no implicit `eig()` call at all: with the spectral
bundle or the modes missing it leaves the state (and the `eig()` counter)
untouched and raises at once, its message likewise directing the caller
to fit the model (and to evaluate the modes). -/
theorem modes_retries_eig_forecast_does_not
    (sp : SpectralBundle) (lsq : SpectralBundle → List (List ℂ))
    (mm : Option (List (List ℂ))) (sp0 : Option SpectralBundle) (e : ℕ)
    (t : NpArg) (w : Option (List ℕ)) (sp1 : SpectralBundle) :
    modesCall sp lsq
        { fitted := true, spectral := none, modesMat := mm, eigCalls := e } =
      ({ fitted := true, spectral := some sp, modesMat := some (lsq sp),
         eigCalls := e + 1 }, .ok ()) ∧
    modesCall sp lsq
        { fitted := false, spectral := sp0, modesMat := mm, eigCalls := e } =
      ({ fitted := false, spectral := sp0, modesMat := mm, eigCalls := e + 1 },
        .error (.attributeError ("You must first fit the model."))) ∧
    forecastCall
        { fitted := true, spectral := none, modesMat := mm, eigCalls := e } t w =
      ({ fitted := true, spectral := none, modesMat := mm, eigCalls := e },
        .error (.attributeError
          ("You must first fit the model and evaluate the modes with the \x27self.modes\x27 method."))) ∧
    forecastCall
        { fitted := true, spectral := some sp1, modesMat := none,
          eigCalls := e } t w =
      ({ fitted := true, spectral := some sp1, modesMat := none,
         eigCalls := e },
        .error (.attributeError
          ("You must first fit the model and evaluate the modes with the \x27self.modes\x27 method."))) := by
  refine ⟨rfl, rfl, ?_, rfl⟩
  cases mm <;> rfl

/-- C10: on a decomposed estimator with computed modes, `forecast` raises
`ValueError` with the exact message "t must be a scalar or a vector."
whenever `t` is a two-dimensional array, leaving the state unchanged; and
a scalar `t` is promoted to the one-element time vector before
exponentiation, so the result coincides with passing the vector `[t]`. -/
theorem forecast_time_argument_validation (f : Bool) (sp : SpectralBundle)
    (m : List (List ℂ)) (e : ℕ) (tm : List (List ℝ)) (w : Option (List ℕ))
    (s : KoopState) (c : ℝ) :
    forecastCall { fitted := f, spectral := some sp, modesMat := some m,
                   eigCalls := e } (NpArg.arr2 tm) w =
      ({ fitted := f, spectral := some sp, modesMat := some m, eigCalls := e },
        .error (.valueError ("t must be a scalar or a vector."))) ∧
    forecastCall s (NpArg.scalar c) w = forecastCall s (NpArg.vec [c]) w := by
  constructor
  · rfl
  · cases hsp : s.spectral with
    | none => simp [forecastCall, hsp]
    | some sp2 =>
        cases hm : s.modesMat with
        | none => simp [forecastCall, hsp, hm]
        | some m2 => simp [forecastCall, hsp, hm, forecastTimeRow]

/-- C9 counterexample: `KernelRidgeRegression.fit` with the unrecognized
backend string "bogus" does not raise an error at parameter validation:
it merely warns and forces the cpu backend, and kernel initialization
proceeds (its internal `parse_backend` succeeds on the forced value). -/
theorem fit_accepts_invalid_backend_counterexample :
    KernelRidgeRegression_fit_backend ("bogus") 10 = (true, .ok ("cpu")) := rfl

/-- C9 (amended): `BaseKoopmanEstimator._check_backend_solver_compatibility`
raises `ValueError` exactly on the incompatible combinations —
unrecognized backend string, unrecognized svd_solver string, negative
iterated_power or n_oversamples with the randomized solver, or the
full+keops pair — before any matrix computation; but the validation is
not shared by every regression variant: `KernelRidgeRegression.fit`
never raises on an unrecognized backend string (it warns and forces
`cpu`). -/
theorem parameter_validation_characterization (p : KEParams) (b : String)
    (rows : ℕ) :
    (check_backend_solver_compatibility p = .ok () ↔
      ((p.backend = "numpy" ∨ p.backend = "keops") ∧
       (p.svd_solver = "full" ∨ p.svd_solver = "arnoldi" ∨
         p.svd_solver = "randomized") ∧
       ¬ (p.svd_solver = "randomized" ∧ p.iterated_power < 0) ∧
       ¬ (p.svd_solver = "randomized" ∧ p.n_oversamples < 0) ∧
       ¬ (p.svd_solver = "full" ∧ p.backend = "keops"))) ∧
    (KernelRidgeRegression_fit_backend b rows).2 = .ok ("cpu") := by
  constructor
  · unfold check_backend_solver_compatibility
    split_ifs with h1 h2 h3 h4 h5 <;> simp_all
  · exact parse_backend_cpu rows

/-- C1: the rank-reduction branch of `PrincipalComponentRegression.fit`
cannot update the stored rank: on a 2-sample dataset whose Gram matrix is
`K_X = [[1,0],[0,0]]` (scipy `eigh` returns the ascending eigenvalues
`[0, 1]`, so the retained singular values are `[1, 0]` and
`_test = [True, False]`), `fit` raises `TypeError` from the boolean-array
slice `V[:_test]` instead of reducing the stored rank 2 to the effective
rank 1 of the factors. -/
theorem pcr_fit_rank_reduction_bug :
    PrincipalComponentRegression_fit_cpu
        (fun _ => ([0, 1], [[(0:ℝ), 1], [1, 0]])) 2 [[(1:ℝ), 0], [0, 0]] =
      .error (.typeError
        ("only integer scalar arrays can be converted to a scalar index")) := by
  have h1 : decide ((2.2e-16 : ℝ) < 0) = false := decide_eq_false (by norm_num)
  simp only [PrincipalComponentRegression_fit_cpu, npIndexOfArray]
  norm_num [List.all, h1]

/-- C8 witness: the amended round identity instantiated at the concrete
1-dimensional exact-solve example, with all hypotheses discharged. -/
theorem rSVD_powerStep_solves_shifted_system_witness :
    matMul (matAdd [[(2:ℝ)]] (matSmul (((1:ℕ):ℝ) * 1) (idMat 1)))
        (rSVD_powerStep solveOracle3 [[(2:ℝ)]] [[(1:ℝ)]] 1 1 [[(1:ℝ)]]) =
      matMul [[(2:ℝ)]] (matMul [[(1:ℝ)]] [[(1:ℝ)]]) := by
  apply rSVD_powerStep_solves_shifted_system solveOracle3
    [[(2:ℝ)]] [[(1:ℝ)]] [[(1:ℝ)]] 1 1
  · norm_num
  · intro c hc
    simp at hc
    simp [hc]
  · intro c hc
    simp [matMul, matVec, sumCols, colSmul] at hc
    simp [hc]
  · simp [solveOracle3, matMul, matVec, sumCols, colSmul, matSmul]
  · norm_num [solveOracle3, matMul, matVec, sumCols, colSmul, colAdd,
      matAdd, matSmul, idMat]

end Kooplearn
